import Mathlib

/-!
# Verification of createcsvs.py (mobility report data extractor)

A shallow embedding of the core of the file in src: the path classifier
categorise_paths and the coordinate mapper convert_units.

Modelling conventions:
* Python complex numbers (SVG points) become `Pt` with rational `re`/`im`.
* A vector path of the external geometry library becomes `PathPrim`: its
  list of segments plus the attributes the library reports (arc length,
  bounding box).  Arc length and bounding box of a cubic curve are not
  rational functions of the control points, so they are carried as data
  supplied by that external collaborator; segments carry their start and
  end points and whether they are cubic Bezier segments.
* The stable Python sort (`sorted`, `list.sort`) is modelled by
  `List.insertionSort`, which is stable.
* `round` is Python 3 `round`: round half to even (`pyRound`).
* Python exceptions become `Except String`; the divisions of
  `convert_units` are total rational division, and every theorem touching
  a quotient carries the nonzero-divisor hypothesis that in Python
  separates a result from a `ZeroDivisionError`.
* The read-only discipline on the path list of the caller is checked
  against `categorise_paths_imp`, a replay of the function over an
  explicit heap of Python list objects in which the one in-place mutation
  (`list.sort`) is a heap write.
-/

namespace CreateCsvs

/-- Decidable equality for `Except`, so that concrete runs of the embedded
functions can be checked by `decide`. -/
instance {ε α : Type} [DecidableEq ε] [DecidableEq α] :
    DecidableEq (Except ε α) := fun a b =>
  match a, b with
  | Except.ok x, Except.ok y =>
    if h : x = y then isTrue (by rw [h]) else isFalse (by simpa using h)
  | Except.error x, Except.error y =>
    if h : x = y then isTrue (by rw [h]) else isFalse (by simpa using h)
  | Except.ok _, Except.error _ => isFalse (by simp)
  | Except.error _, Except.ok _ => isFalse (by simp)

/-- A 2D point, as the complex number `re + im*i` of the Python code. -/
structure Pt where
  re : ℚ
  im : ℚ
  deriving DecidableEq, Repr

/-- One curve segment of an SVG path: a straight line or a cubic Bezier,
with its start and end points. -/
structure Segment where
  isCubic : Bool
  start : Pt
  endp : Pt
  deriving DecidableEq, Repr

/-- An axis-aligned bounding box `(xmin, xmax, ymin, ymax)`, as returned
by the `bbox()` method of the geometry library. -/
structure BBox where
  xmin : ℚ
  xmax : ℚ
  ymin : ℚ
  ymax : ℚ
  deriving DecidableEq, Repr

/-- A path primitive: its segments, and the attributes (`length()`,
`bbox()`) that the external geometry library computes for it. -/
structure PathPrim where
  segs : List Segment
  length : ℚ
  bbox : BBox
  deriving DecidableEq, Repr

/-- Placeholder segment used only to totalise `headD`/`getLastD`; every
list it is applied to in the development is nonempty on the live paths. -/
def dummySeg : Segment := ⟨false, ⟨0, 0⟩, ⟨0, 0⟩⟩

/-- `path.start` of the geometry library: the start point of the first
segment. -/
def PathPrim.start (p : PathPrim) : Pt := (p.segs.headD dummySeg).start

/-- `path.end` of the geometry library: the end point of the last
segment. -/
def PathPrim.endPt (p : PathPrim) : Pt := (p.segs.getLastD dummySeg).endp

/-- Modelled from the spec: `continuous_subpaths()` of the external
geometry library splits a path into maximal runs of segments in which
each segment end point touches the next segment start point. -/
def continuousSubpaths : List Segment → List (List Segment)
  | [] => []
  | [s] => [[s]]
  | s :: t :: rest =>
    match continuousSubpaths (t :: rest) with
    | [] => [[s]]
    | g :: gs => if s.endp = t.start then (s :: g) :: gs else [s] :: g :: gs

/-- The sample points one continuous sub-path contributes: the start point
of every segment, then the final end point of the sub-path. -/
def subpathPoints (sp : List Segment) : List Pt :=
  sp.map (fun s => s.start) ++ [(sp.getLastD dummySeg).endp]

/-- Centre of the bounding box of a primitive. -/
def bboxCenter (t : PathPrim) : Pt :=
  ⟨(t.bbox.xmin + t.bbox.xmax) / 2, (t.bbox.ymin + t.bbox.ymax) / 2⟩

/-- The sample points `categorise_paths` extracts from one trend primitive
(createcsvs.py lines 131-143): the bounding-box centre when the first
segment is a cubic Bezier, otherwise, per continuous sub-path, every
segment start plus the sub-path end. -/
def samplesOfTrend (t : PathPrim) : List Pt :=
  if (t.segs.headD dummySeg).isCubic then
    [bboxCenter t]
  else
    ((continuousSubpaths t.segs).map subpathPoints).flatten

/-- The comprehension filtering paths with exactly one segment. -/
def singleSegs (paths : List PathPrim) : List PathPrim :=
  paths.filter fun p => p.segs.length == 1

/-- The comprehension filtering paths with more than one segment. -/
def multiSegs (paths : List PathPrim) : List PathPrim :=
  paths.filter fun p => 1 < p.segs.length

/-- The single-segment primitives sorted ascending by arc length (the
in-place sort keyed on `p.length()`). -/
def sortedSingles (paths : List PathPrim) : List PathPrim :=
  List.insertionSort (fun a b => a.length ≤ b.length) (singleSegs paths)

/-- `short_trends`: with more than 5 single-segment primitives this is the
slice `[:-5]` of the length-sorted list, otherwise the empty list. -/
def shortTrends (paths : List PathPrim) : List PathPrim :=
  if 5 < (singleSegs paths).length then
    (sortedSingles paths).take ((sortedSingles paths).length - 5)
  else []

/-- The single-segment primitives kept as reference-line candidates: with
more than 5 of them, the slice `[:5]` of the length-sorted list, otherwise
all of them. -/
def keptSingles (paths : List PathPrim) : List PathPrim :=
  if 5 < (singleSegs paths).length then (sortedSingles paths).take 5
  else singleSegs paths

/-- The start-point y-coordinates of the kept candidates. -/
def keptStartYs (paths : List PathPrim) : List ℚ :=
  (keptSingles paths).map fun p => p.start.im

/-- `y_lines` before the collapse: the kept start ys sorted ascending. -/
def ySorted (paths : List PathPrim) : List ℚ :=
  List.insertionSort (· ≤ ·) (keptStartYs paths)

/-- `y_lines` after the optional 5-to-3 collapse (indices 0, 2 and -1 when
there are exactly 5 values). -/
def yCollapsed (paths : List PathPrim) : List ℚ :=
  if (ySorted paths).length = 5 then
    [(ySorted paths).getD 0 0, (ySorted paths).getD 2 0, (ySorted paths).getD 4 0]
  else ySorted paths

/-- `xlim`: the `(start.x, end.x)` pair at index 1 of the single-segment
primitives taken in the original path-list order. -/
def xlimOf (paths : List PathPrim) : ℚ × ℚ :=
  ((singleSegs paths).map fun p => (p.start.re, p.endPt.re)).getD 1 (0, 0)

/-- `trends`: the multi-segment primitives followed by `short_trends`. -/
def trendPrims (paths : List PathPrim) : List PathPrim :=
  multiSegs paths ++ shortTrends paths

/-- All sample points collected from the trend primitives, in traversal
order. -/
def trendPoints (paths : List PathPrim) : List Pt :=
  ((trendPrims paths).map samplesOfTrend).flatten

/-- `categorise_paths` of createcsvs.py: classify the primitives of one
drawing into x-limits, the three reference y-lines (sorted descending)
and the trend sample points, or fail with the `ValueError` message. -/
def categorise_paths (paths : List PathPrim) :
    Except String ((ℚ × ℚ) × List ℚ × List Pt) :=
  if (yCollapsed paths).length = 3 then
    Except.ok (xlimOf paths,
      List.insertionSort (fun a b => b ≤ a) (yCollapsed paths),
      trendPoints paths)
  else
    Except.error ("Wrong number of y_lines: " ++ toString (yCollapsed paths).length)

/-- Python 3 `round` on an exact rational: round half to even. -/
def pyRound (q : ℚ) : ℤ :=
  if q - ⌊q⌋ < 1 / 2 then ⌊q⌋
  else if 1 / 2 < q - ⌊q⌋ then ⌊q⌋ + 1
  else if ⌊q⌋ % 2 = 0 then ⌊q⌋ else ⌊q⌋ + 1

/-- `convert_units` of createcsvs.py: map trend points from SVG
coordinates to `(day_offset, percentage)` pairs.  `line_y` must unpack as
`ymax, ymid, ymin` (exactly three elements), as in the Python tuple
assignment. -/
def convert_units (trend : List Pt) (line_y : List ℚ) (xlim : ℚ × ℚ)
    (yspan xspan : ℚ) : Except String (List (ℤ × ℚ)) :=
  let xmin := xlim.1
  let xmax := xlim.2
  let x_scale := xmax - xmin
  match line_y with
  | [ymax, ymid, ymin] =>
    let y_scale := (|ymax - ymid| + |ymid - ymin|) / 2
    Except.ok (trend.map fun point =>
      (1 + pyRound (xspan * ((point.re - xmin) / x_scale)),
       yspan * ((ymid - point.im) / y_scale)))
  | _ => Except.error ("ValueError: not enough values to unpack")

/-- The number of reference y-lines present after the optional 5-to-3
collapse, as a function of the count of single-segment primitives. -/
def collapsedCount (paths : List PathPrim) : ℕ :=
  if 5 < (singleSegs paths).length then 3
  else if (singleSegs paths).length = 5 then 3
  else (singleSegs paths).length

/-- A heap of Python list objects holding path primitives: a mapping from
references to list values, with a fresh-allocation counter.  Primitives
themselves are immutable values (the Python code never mutates a path
object), so only the lists live in the heap. -/
structure Heap where
  mem : Nat → List PathPrim
  next : Nat

/-- Allocate a fresh list object (list comprehensions and slices build
new lists in Python). -/
def Heap.alloc (h : Heap) (l : List PathPrim) : Heap × Nat :=
  (⟨fun i => if i = h.next then l else h.mem i, h.next + 1⟩, h.next)

/-- Overwrite the list object behind reference `r` (the in-place
`list.sort`). -/
def Heap.write (h : Heap) (r : Nat) (l : List PathPrim) : Heap :=
  ⟨fun i => if i = r then l else h.mem i, h.next⟩

/-- `categorise_paths` replayed against the heap model, mutation by
mutation: the comprehension allocates a fresh list, `sort` writes that
fresh list in place, the slices `[:-5]` and `[:5]` allocate fresh lists
that the local names are rebound to.  Returns the final heap with the
result. -/
def categorise_paths_imp (h0 : Heap) (pathsRef : Nat) :
    Heap × Except String ((ℚ × ℚ) × List ℚ × List Pt) :=
  let paths := h0.mem pathsRef
  let a1 := h0.alloc (paths.filter fun p => p.segs.length == 1)
  let a2 := a1.1.alloc []
  let step :=
    if 5 < (a2.1.mem a1.2).length then
      let h3 := a2.1.write a1.2
        (List.insertionSort (fun a b => a.length ≤ b.length) (a2.1.mem a1.2))
      let sorted := h3.mem a1.2
      let a4 := h3.alloc (sorted.take (sorted.length - 5))
      let a5 := a4.1.alloc (sorted.take 5)
      (a5.1, a5.2, a4.2)
    else (a2.1, a1.2, a2.2)
  let hF := step.1
  let single_segment_lines := hF.mem step.2.1
  let short_trends := hF.mem step.2.2
  let y_sorted := List.insertionSort (· ≤ ·) (single_segment_lines.map fun p => p.start.im)
  let y_lines :=
    if y_sorted.length = 5 then [y_sorted.getD 0 0, y_sorted.getD 2 0, y_sorted.getD 4 0]
    else y_sorted
  if y_lines.length = 3 then
    let xlim := ((paths.filter fun p => p.segs.length == 1).map
      fun p => (p.start.re, p.endPt.re)).getD 1 (0, 0)
    let trends := (paths.filter fun p => 1 < p.segs.length) ++ short_trends
    (hF, Except.ok (xlim, List.insertionSort (fun a b => b ≤ a) y_lines,
      (trends.map samplesOfTrend).flatten))
  else
    (hF, Except.error ("Wrong number of y_lines: " ++ toString y_lines.length))

/-- A horizontal straight-line primitive from `(x1, y)` to `(x2, y)`; its
arc length `len` (here always `x2 - x1`, supplied as a literal so that
concrete runs reduce in the kernel) and its bounding box are the values
the geometry library would report. -/
def hline (x1 x2 y len : ℚ) : PathPrim :=
  ⟨[⟨false, ⟨x1, y⟩, ⟨x2, y⟩⟩], len, ⟨x1, x2, y, y⟩⟩

/-- A drawing with exactly 3 reference lines (start ys 10, 50, 90), all
spanning x 0..420, and no trend primitive. -/
def threePaths : List PathPrim :=
  [hline 0 420 10 420, hline 0 420 50 420, hline 0 420 90 420]

/-- A drawing with exactly 3 reference lines whose x-extents differ, so
that the x-limits identify which primitive they came from. -/
def threePathsX : List PathPrim :=
  [hline 0 100 10 100, hline 5 105 50 100, hline 7 107 90 100]

/-- A drawing with exactly 5 single-segment primitives (start ys 1..5)
and no multi-segment primitive. -/
def fivePaths : List PathPrim :=
  [hline 0 9 1 9, hline 0 9 2 9, hline 0 9 3 9, hline 0 9 4 9, hline 0 9 5 9]

/-- A drawing with 6 single-segment primitives of pairwise distinct arc
lengths 10 < 20 < ... < 60 and start ys 1..6. -/
def sixPaths : List PathPrim :=
  [hline 0 10 1 10, hline 0 20 2 20, hline 0 30 3 30, hline 0 40 4 40,
   hline 0 50 5 50, hline 0 60 6 60]

/-- A drawing with exactly 4 single-segment primitives. -/
def fourPaths : List PathPrim :=
  [hline 0 9 1 9, hline 0 9 2 9, hline 0 9 3 9, hline 0 9 4 9]

/-- A one-cell heap whose reference 0 holds `sixPaths`. -/
def heapC : Heap := ⟨fun _ => sixPaths, 1⟩

/-! ## Lemmas about the rounding function -/

lemma le_pyRound (q : ℚ) : ⌊q⌋ ≤ pyRound q := by
  unfold pyRound
  split
  · exact le_rfl
  split
  · omega
  split
  · exact le_rfl
  · omega

lemma pyRound_le (q : ℚ) : pyRound q ≤ ⌊q⌋ + 1 := by
  unfold pyRound
  split
  · omega
  split
  · omega
  split
  · omega
  · omega

lemma pyRound_intCast (n : ℤ) : pyRound (n : ℚ) = n := by
  unfold pyRound
  rw [Int.floor_intCast]
  norm_num

lemma pyRound_mono {a c : ℚ} (h : a ≤ c) : pyRound a ≤ pyRound c := by
  rcases lt_or_eq_of_le (Int.floor_mono h) with hf | hf
  · calc pyRound a ≤ ⌊a⌋ + 1 := pyRound_le a
      _ ≤ ⌊c⌋ := by omega
      _ ≤ pyRound c := le_pyRound c
  · unfold pyRound
    rw [← hf]
    split_ifs <;> first | omega | linarith

/-! ## Lemmas about the sub-path decomposition -/

lemma continuousSubpaths_cons_head (x : Segment) (l : List Segment) :
    ∃ g gs, continuousSubpaths (x :: l) = (x :: g) :: gs := by
  induction l generalizing x with
  | nil => exact ⟨[], [], rfl⟩
  | cons t rest ih =>
    obtain ⟨g, gs, hg⟩ := ih t
    by_cases hconn : x.endp = t.start
    · exact ⟨t :: g, gs, by simp [continuousSubpaths, hg, hconn]⟩
    · exact ⟨[], (t :: g) :: gs, by simp [continuousSubpaths, hg, hconn]⟩

lemma continuousSubpaths_flatten (l : List Segment) :
    (continuousSubpaths l).flatten = l := by
  induction l with
  | nil => rfl
  | cons x rest ih =>
    cases rest with
    | nil => rfl
    | cons t r2 =>
      obtain ⟨g, gs, hg⟩ := continuousSubpaths_cons_head t r2
      rw [hg] at ih
      by_cases hconn : x.endp = t.start
      · simp only [continuousSubpaths, hg, if_pos hconn]
        simpa using ih
      · simp only [continuousSubpaths, hg, if_neg hconn]
        simpa using ih

lemma continuousSubpaths_groups (l : List Segment) :
    ∀ g ∈ continuousSubpaths l,
      g ≠ [] ∧ List.Chain' (fun s s2 => s.endp = s2.start) g := by
  induction l with
  | nil => simp [continuousSubpaths]
  | cons x rest ih =>
    cases rest with
    | nil =>
      intro g hg
      simp only [continuousSubpaths, List.mem_singleton] at hg
      subst hg
      simp
    | cons t r2 =>
      obtain ⟨g0, gs, hg⟩ := continuousSubpaths_cons_head t r2
      rw [hg] at ih
      intro g hmem
      simp only [continuousSubpaths, hg] at hmem
      by_cases hconn : x.endp = t.start
      · rw [if_pos hconn] at hmem
        rcases List.mem_cons.mp hmem with h1 | h2
        · subst h1
          refine ⟨by simp, ?_⟩
          rw [List.chain'_cons]
          exact ⟨hconn, (ih (t :: g0) (List.mem_cons_self _ _)).2⟩
        · exact ih g (List.mem_cons_of_mem _ h2)
      · rw [if_neg hconn] at hmem
        rcases List.mem_cons.mp hmem with h1 | h2
        · subst h1
          exact ⟨by simp, by simp⟩
        · exact ih g h2

lemma continuousSubpaths_maximal (l : List Segment) :
    List.Chain' (fun g g2 => (g.getLastD dummySeg).endp ≠ (g2.headD dummySeg).start)
      (continuousSubpaths l) := by
  induction l with
  | nil => simp [continuousSubpaths]
  | cons x rest ih =>
    cases rest with
    | nil => simp [continuousSubpaths]
    | cons t r2 =>
      obtain ⟨g0, gs, hg⟩ := continuousSubpaths_cons_head t r2
      rw [hg] at ih
      simp only [continuousSubpaths, hg]
      by_cases hconn : x.endp = t.start
      · rw [if_pos hconn]
        cases gs with
        | nil => simp
        | cons g1 gs2 =>
          rw [List.chain'_cons] at ih ⊢
          refine ⟨?_, ih.2⟩
          simpa [List.getLastD_cons] using ih.1
      · rw [if_neg hconn]
        rw [List.chain'_cons]
        refine ⟨by simpa using hconn, ih⟩

/-! ## Lemmas about the classification pipeline -/

lemma length_keptSingles (paths : List PathPrim) :
    (keptSingles paths).length =
      if 5 < (singleSegs paths).length then 5 else (singleSegs paths).length := by
  unfold keptSingles
  split
  · next h =>
    rw [List.length_take, sortedSingles, List.length_insertionSort]
    omega
  · rfl

lemma length_ySorted (paths : List PathPrim) :
    (ySorted paths).length = (keptSingles paths).length := by
  rw [ySorted, List.length_insertionSort, keptStartYs, List.length_map]

lemma length_yCollapsed (paths : List PathPrim) :
    (yCollapsed paths).length = collapsedCount paths := by
  unfold yCollapsed collapsedCount
  have hy := length_ySorted paths
  have hk := length_keptSingles paths
  split
  · next h5 =>
    simp only [List.length_cons, List.length_nil]
    rw [hy, hk] at h5
    split_ifs at h5 ⊢ <;> omega
  · next h5 =>
    rw [hy, hk] at h5 ⊢
    split_ifs at h5 ⊢ <;> omega

lemma categorise_paths_ok_iff (paths : List PathPrim) :
    (∃ r, categorise_paths paths = Except.ok r) ↔ collapsedCount paths = 3 := by
  unfold categorise_paths
  rw [length_yCollapsed]
  split
  · next h => exact ⟨fun _ => h, fun _ => ⟨_, rfl⟩⟩
  · next h =>
    constructor
    · rintro ⟨r, hr⟩
      exact absurd hr (by simp)
    · intro h3
      exact absurd h3 h

lemma categorise_paths_ok_elim (paths : List PathPrim) (xl : ℚ × ℚ) (ys : List ℚ)
    (pts : List Pt) (h : categorise_paths paths = Except.ok (xl, ys, pts)) :
    collapsedCount paths = 3 ∧ xl = xlimOf paths
      ∧ ys = List.insertionSort (fun a b => b ≤ a) (yCollapsed paths)
      ∧ pts = trendPoints paths := by
  unfold categorise_paths at h
  rw [length_yCollapsed] at h
  split at h
  · next hcond =>
    simp only [Except.ok.injEq, Prod.mk.injEq] at h
    exact ⟨hcond, h.1.symm, h.2.1.symm, h.2.2.symm⟩
  · next hcond => exact absurd h (by simp)

lemma insertionSort_desc_three (a b c : ℚ) (h1 : a ≤ b) (h2 : b ≤ c) :
    List.insertionSort (fun x y => y ≤ x) [a, b, c] = [c, b, a] := by
  haveI ht : IsTotal ℚ (fun x y : ℚ => y ≤ x) := ⟨fun x y => le_total y x⟩
  haveI htr : IsTrans ℚ (fun x y : ℚ => y ≤ x) :=
    ⟨fun x y z hxy hyz => le_trans hyz hxy⟩
  haveI ha : IsAntisymm ℚ (fun x y : ℚ => y ≤ x) :=
    ⟨fun x y hxy hyx => le_antisymm hyx hxy⟩
  apply List.eq_of_perm_of_sorted ((List.perm_insertionSort _ _).trans ?_)
    (List.sorted_insertionSort _ _) ?_
  · simpa using (List.reverse_perm [a, b, c]).symm
  · refine List.sorted_cons.mpr ⟨?_, List.sorted_cons.mpr ⟨?_, List.sorted_singleton _⟩⟩
    · intro y hy
      rcases List.mem_cons.mp hy with hh | hh
      · subst hh
        exact h2
      · rw [List.mem_singleton] at hh
        subst hh
        exact h1.trans h2
    · intro y hy
      rw [List.mem_singleton] at hy
      subst hy
      exact h1

/-! ## The claims -/

/-- C1 (code-bug evidence): with more than 5 single-segment primitives the
code keeps the slice `[:5]` of the ascending length sort, i.e. the 5
SHORTEST primitives, as reference-line candidates, while `short_trends`
is the slice `[:-5]`, so the shortest primitive is used both as a
reference candidate and as a trend fragment, and the longest primitive is
dropped entirely.  On `sixPaths` the returned triple [5, 3, 1] comes from
the 5 shortest primitives (the y of the longest, 6, is absent) while the
trend points are exactly the endpoints of the shortest primitive, whose y
(1) also sits in the triple. -/
theorem shortest_kept_and_reclassified :
    categorise_paths sixPaths = Except.ok ((0, 20), [5, 3, 1], [⟨0, 1⟩, ⟨10, 1⟩])
    ∧ keptSingles sixPaths = sixPaths.take 5
    ∧ shortTrends sixPaths = sixPaths.take 1
    ∧ ¬ ((6 : ℚ) ∈ keptStartYs sixPaths) := by
  exact ⟨by decide, by decide, by decide, by decide⟩

/-- C2 counterexample: on `threePaths` the classifier returns the triple
[90, 50, 10] (descending native y, symmetric spacing 40), and
`convert_units` maps a sample whose native y equals the FIRST element, 90,
to the value -80 = -yspan, not +yspan as the claim states. -/
theorem triple_orientation_cex :
    categorise_paths threePaths = Except.ok ((0, 420), [90, 50, 10], [])
    ∧ (90 : ℚ) - 50 = 40 ∧ (50 : ℚ) - 10 = 40 ∧ (0 : ℚ) < 40
    ∧ (convert_units [⟨210, 90⟩] [90, 50, 10] (0, 420) 80 42).map
        (fun out => out.map Prod.snd) = Except.ok [-80]
    ∧ ¬ ((-80 : ℚ) = 80) := by
  refine ⟨by decide, by norm_num, by norm_num, by norm_num, ?_, by norm_num⟩
  norm_num [convert_units, pyRound, Except.map]

/-- C2 (amended): for a reference triple [u, b, l] as returned by
`categorise_paths` (sorted descending in native y) with symmetric spacing
u - b = b - l = d > 0, `convert_units` maps a sample at the first element
u (the largest native y, i.e. the bottom reference line) to -yspan, a
sample at the baseline b to 0, and a sample at the third element l (the
smallest native y, the top line) to +yspan: the mapping inverts the
downward-positive native y axis. -/
theorem reference_triple_semantics (paths : List PathPrim) (xl : ℚ × ℚ)
    (u b l : ℚ) (pts : List Pt) (d x xmin xmax yspan xspan : ℚ)
    (h : categorise_paths paths = Except.ok (xl, [u, b, l], pts))
    (hub : u - b = d) (hbl : b - l = d) (hd : 0 < d) :
    (convert_units [⟨x, u⟩, ⟨x, b⟩, ⟨x, l⟩] [u, b, l] (xmin, xmax) yspan xspan).map
        (fun out => out.map Prod.snd) = Except.ok [-yspan, 0, yspan] := by
  have hscale : (|u - b| + |b - l|) / 2 = d := by
    rw [hub, hbl, abs_of_pos hd]
    ring
  simp only [convert_units, Except.map, List.map_cons, List.map_nil]
  rw [hscale]
  simp only [Except.ok.injEq, List.cons.injEq, and_true]
  have hbu : b - u = -d := by linarith
  refine ⟨?_, ?_, ?_⟩
  · rw [hbu, neg_div, div_self (ne_of_gt hd)]
    ring
  · rw [sub_self, zero_div, mul_zero]
  · rw [hbl, div_self (ne_of_gt hd)]
    ring

/-- Witness for C2 at a concrete drawing: on `threePaths` the triple is
[90, 50, 10] and the three probe samples map to [-80, 0, 80]. -/
theorem reference_triple_semantics_witness :
    (convert_units [⟨210, 90⟩, ⟨210, 50⟩, ⟨210, 10⟩] [90, 50, 10] (0, 420) 80 42).map
        (fun out => out.map Prod.snd) = Except.ok [-80, 0, 80] :=
  reference_triple_semantics threePaths (0, 420) 90 50 10 [] 40 210 0 420 80 42
    (by decide) (by norm_num) (by norm_num) (by norm_num)

/-- C3 counterexample: `fivePaths` has exactly 5 single-segment
primitives; the rank-1 primitive excluded by the median/extremes collapse
starts at (0, 2), yet the returned trend-sample sequence is empty, so the
points of the excluded primitives are NOT folded into the trend samples. -/
theorem five_lines_folded_cex :
    categorise_paths fivePaths = Except.ok ((0, 9), [5, 3, 1], [])
    ∧ fivePaths[1]?.map (fun p => p.start) = some ⟨0, 2⟩
    ∧ ¬ ((⟨0, 2⟩ : Pt) ∈ ([] : List Pt)) := by
  exact ⟨by decide, by decide, by simp⟩

/-- C3 (amended): for a drawing with exactly 5 single-segment primitives
the 2 primitives excluded by the median/extremes collapse are discarded,
not folded in: `short_trends` stays empty and the returned samples come
from the multi-segment primitives alone. -/
theorem five_lines_excluded_discarded (paths : List PathPrim) (xl : ℚ × ℚ)
    (ys : List ℚ) (pts : List Pt) (h5 : (singleSegs paths).length = 5)
    (h : categorise_paths paths = Except.ok (xl, ys, pts)) :
    pts = ((multiSegs paths).map samplesOfTrend).flatten ∧ shortTrends paths = [] := by
  obtain ⟨-, -, -, hpts⟩ := categorise_paths_ok_elim paths xl ys pts h
  have hnot : ¬ 5 < (singleSegs paths).length := by
    rw [h5]
    omega
  have hst : shortTrends paths = [] := by
    unfold shortTrends
    rw [if_neg hnot]
  refine ⟨?_, hst⟩
  rw [hpts]
  unfold trendPoints trendPrims
  rw [hst, List.append_nil]

/-- Witness for C3 at a concrete drawing with exactly 5 single-segment
primitives. -/
theorem five_lines_excluded_discarded_witness :
    ([] : List Pt) = ((multiSegs fivePaths).map samplesOfTrend).flatten
    ∧ shortTrends fivePaths = [] :=
  five_lines_excluded_discarded fivePaths (0, 9) [5, 3, 1] [] (by decide) (by decide)

/-- C4: for a drawing whose single-segment candidates yield exactly 5
start-y values, the ascending sort is collapsed to its minimum, its
index-2 element (the median) and its maximum, and the returned reference
triple is these three values in descending order [max, median, min]. -/
theorem five_lines_collapse (paths : List PathPrim) (xl : ℚ × ℚ) (ys : List ℚ)
    (pts : List Pt) (h5 : (singleSegs paths).length = 5)
    (h : categorise_paths paths = Except.ok (xl, ys, pts)) :
    ys = [(ySorted paths).getD 4 0, (ySorted paths).getD 2 0, (ySorted paths).getD 0 0]
    ∧ (∀ y ∈ (singleSegs paths).map fun p => p.start.im,
        (ySorted paths).getD 0 0 ≤ y ∧ y ≤ (ySorted paths).getD 4 0)
    ∧ ((ySorted paths).getD 0 0 ∈ (singleSegs paths).map fun p => p.start.im)
    ∧ ((ySorted paths).getD 4 0 ∈ (singleSegs paths).map fun p => p.start.im) := by
  obtain ⟨h3, hxl, hys, hpts⟩ := categorise_paths_ok_elim paths xl ys pts h
  have hnot : ¬ 5 < (singleSegs paths).length := by
    rw [h5]
    omega
  have hkept : keptSingles paths = singleSegs paths := by
    unfold keptSingles
    rw [if_neg hnot]
  have hlen : (ySorted paths).length = 5 := by
    rw [length_ySorted, length_keptSingles, if_neg hnot, h5]
  have hcoll : yCollapsed paths =
      [(ySorted paths).getD 0 0, (ySorted paths).getD 2 0, (ySorted paths).getD 4 0] := by
    unfold yCollapsed
    rw [if_pos hlen]
  have hmapkept : keptStartYs paths = (singleSegs paths).map fun p => p.start.im := by
    unfold keptStartYs
    rw [hkept]
  have hsorted : List.Sorted (· ≤ ·) (ySorted paths) := List.sorted_insertionSort _ _
  have hperm : (ySorted paths).Perm ((singleSegs paths).map fun p => p.start.im) := by
    rw [← hmapkept]
    exact List.perm_insertionSort _ _
  have h0lt : 0 < (ySorted paths).length := by omega
  have h2lt : 2 < (ySorted paths).length := by omega
  have h4lt : 4 < (ySorted paths).length := by omega
  have hp := List.pairwise_iff_get.mp hsorted
  have h02 : (ySorted paths).getD 0 0 ≤ (ySorted paths).getD 2 0 := by
    rw [List.getD_eq_getElem _ _ h0lt, List.getD_eq_getElem _ _ h2lt]
    simpa [List.get_eq_getElem] using hp ⟨0, h0lt⟩ ⟨2, h2lt⟩ (by simp [Fin.lt_def])
  have h24 : (ySorted paths).getD 2 0 ≤ (ySorted paths).getD 4 0 := by
    rw [List.getD_eq_getElem _ _ h2lt, List.getD_eq_getElem _ _ h4lt]
    simpa [List.get_eq_getElem] using hp ⟨2, h2lt⟩ ⟨4, h4lt⟩ (by simp [Fin.lt_def])
  refine ⟨?_, ?_, ?_, ?_⟩
  · rw [hys, hcoll]
    exact insertionSort_desc_three _ _ _ h02 h24
  · intro y hy
    have hy2 : y ∈ ySorted paths := hperm.mem_iff.mpr hy
    obtain ⟨i, hi⟩ := List.mem_iff_get.mp hy2
    have hi5 : i.val < 5 := by
      have := i.isLt
      omega
    constructor
    · rw [List.getD_eq_getElem _ _ h0lt]
      rcases Nat.eq_zero_or_pos i.val with hz | hpos
      · rw [← hi, List.get_eq_getElem]
        simp [hz]
      · have hrel := hp ⟨0, h0lt⟩ i (by simp [Fin.lt_def, hpos])
        rw [← hi]
        simpa [List.get_eq_getElem] using hrel
    · rw [List.getD_eq_getElem _ _ h4lt]
      have hsplit : i.val = 4 ∨ i.val < 4 := by omega
      rcases hsplit with he | hlt
      · rw [← hi, List.get_eq_getElem]
        simp [he]
      · have hrel := hp i ⟨4, h4lt⟩ (by simp [Fin.lt_def, hlt])
        rw [← hi]
        simpa [List.get_eq_getElem] using hrel
  · rw [List.getD_eq_getElem _ _ h0lt]
    exact hperm.mem_iff.mp (List.getElem_mem _)
  · rw [List.getD_eq_getElem _ _ h4lt]
    exact hperm.mem_iff.mp (List.getElem_mem _)

/-- Witness for C4 at `fivePaths`: the sorted start ys are [1, 2, 3, 4, 5]
and the returned triple [5, 3, 1] is [max, median, min]. -/
theorem five_lines_collapse_witness :
    ([(5 : ℚ), 3, 1]
        = [(ySorted fivePaths).getD 4 0, (ySorted fivePaths).getD 2 0,
            (ySorted fivePaths).getD 0 0])
    ∧ (∀ y ∈ (singleSegs fivePaths).map fun p => p.start.im,
        (ySorted fivePaths).getD 0 0 ≤ y ∧ y ≤ (ySorted fivePaths).getD 4 0)
    ∧ ((ySorted fivePaths).getD 0 0 ∈ (singleSegs fivePaths).map fun p => p.start.im)
    ∧ ((ySorted fivePaths).getD 4 0 ∈ (singleSegs fivePaths).map fun p => p.start.im) :=
  five_lines_collapse fivePaths (0, 9) [5, 3, 1] [] (by decide) (by decide)

/-- C5: `categorise_paths` fails with the ValueError message naming the
offending count exactly when the number of reference y-lines after the
optional 5-to-3 collapse is not 3; in particular a drawing with 4
single-segment primitives fails with that message and a drawing resolving
to 3 returns normally. -/
theorem wrong_count_error (paths : List PathPrim) :
    ((∃ e, categorise_paths paths = Except.error e) ↔ collapsedCount paths ≠ 3)
    ∧ (∀ e, categorise_paths paths = Except.error e →
        e = "Wrong number of y_lines: " ++ toString (collapsedCount paths))
    ∧ (collapsedCount paths = 3 → ∃ r, categorise_paths paths = Except.ok r)
    ∧ ((singleSegs paths).length = 4 →
        categorise_paths paths = Except.error ("Wrong number of y_lines: 4"))
    ∧ ((singleSegs paths).length = 3 → ∃ r, categorise_paths paths = Except.ok r) := by
  have hok := categorise_paths_ok_iff paths
  have hcount := length_yCollapsed paths
  refine ⟨?_, ?_, fun h3 => hok.mpr h3, ?_, ?_⟩
  · unfold categorise_paths at *
    rw [hcount]
    split
    · next h => simp [h]
    · next h => exact ⟨fun _ => h, fun _ => ⟨_, rfl⟩⟩
  · intro e he
    unfold categorise_paths at he
    rw [hcount] at he
    split at he
    · exact absurd he (by simp)
    · injection he with h2
      exact h2.symm
  · intro h4
    have hc : collapsedCount paths = 4 := by
      unfold collapsedCount
      rw [h4]
      norm_num
    unfold categorise_paths
    rw [hcount, hc]
    norm_num
    rfl
  · intro h3
    apply hok.mpr
    unfold collapsedCount
    rw [h3]
    norm_num

/-- C6: whenever classification succeeds, the returned x-limits are the
`(start.x, end.x)` pair of the primitive at index 1 of the single-segment
primitives taken in the original path-list order. -/
theorem xlim_from_second_single (paths : List PathPrim) (xl : ℚ × ℚ) (ys : List ℚ)
    (pts : List Pt) (h : categorise_paths paths = Except.ok (xl, ys, pts)) :
    ((singleSegs paths).map fun p => (p.start.re, p.endPt.re))[1]? = some xl := by
  obtain ⟨h3, hxl, -, -⟩ := categorise_paths_ok_elim paths xl ys pts h
  have hn : 2 ≤ (singleSegs paths).length := by
    unfold collapsedCount at h3
    split_ifs at h3 <;> omega
  have h1 : 1 < ((singleSegs paths).map fun p => (p.start.re, p.endPt.re)).length := by
    rw [List.length_map]
    omega
  subst hxl
  unfold xlimOf
  rw [List.getElem?_eq_getElem h1, List.getD_eq_getElem _ _ h1]

/-- Witness for C6 at `threePathsX`, whose second single-segment primitive
spans x 5..105. -/
theorem xlim_from_second_single_witness :
    ((singleSegs threePathsX).map fun p => (p.start.re, p.endPt.re))[1]?
      = some (5, 105) :=
  xlim_from_second_single threePathsX (5, 105) [90, 50, 10] [] (by decide)

/-- C7: `convert_units` returns exactly one pair per sample, in order,
equal to (1 + round(xspan*(x - xmin)/(xmax - xmin)),
yspan*(baseline - y)/y_scale) with y_scale the mean of the two
half-spans; the empty input yields the empty output, x = xmin is mapped
to day offset 1 and x = xmax to day offset 1 + xspan. -/
theorem convert_units_formula (trend : List Pt) (u b l xmin xmax yspan : ℚ)
    (xspan : ℤ) (hx : xmax ≠ xmin) (hy : (|u - b| + |b - l|) / 2 ≠ 0) :
    convert_units trend [u, b, l] (xmin, xmax) yspan (xspan : ℚ) =
      Except.ok (trend.map fun p =>
        (1 + pyRound ((xspan : ℚ) * ((p.re - xmin) / (xmax - xmin))),
         yspan * ((b - p.im) / ((|u - b| + |b - l|) / 2))))
    ∧ convert_units [] [u, b, l] (xmin, xmax) yspan (xspan : ℚ) = Except.ok []
    ∧ (∀ y : ℚ, convert_units [⟨xmin, y⟩] [u, b, l] (xmin, xmax) yspan (xspan : ℚ) =
        Except.ok [(1, yspan * ((b - y) / ((|u - b| + |b - l|) / 2)))])
    ∧ (∀ y : ℚ, convert_units [⟨xmax, y⟩] [u, b, l] (xmin, xmax) yspan (xspan : ℚ) =
        Except.ok [(1 + xspan, yspan * ((b - y) / ((|u - b| + |b - l|) / 2)))]) := by
  have h0 : pyRound ((0 : ℚ)) = 0 := by
    simpa using pyRound_intCast 0
  have hxs : pyRound ((xspan : ℚ)) = xspan := pyRound_intCast xspan
  refine ⟨rfl, rfl, ?_, ?_⟩
  · intro y
    simp only [convert_units, List.map_cons, List.map_nil, Except.ok.injEq,
      List.cons.injEq, Prod.mk.injEq, and_true]
    rw [sub_self, zero_div, mul_zero, h0]
    omega
  · intro y
    simp only [convert_units, List.map_cons, List.map_nil, Except.ok.injEq,
      List.cons.injEq, Prod.mk.injEq, and_true]
    rw [div_self (sub_ne_zero.mpr hx), mul_one, hxs]

/-- Witness for C7: one sample at the x midpoint of a 0..420 axis with
xspan 42 lands on day offset 22 with value 0. -/
theorem convert_units_formula_witness :
    convert_units [⟨210, 50⟩] [90, 50, 10] (0, 420) 80 ((42 : ℤ) : ℚ)
      = Except.ok [(22, 0)] := by
  have h := (convert_units_formula [⟨210, 50⟩] 90 50 10 0 420 80 42
    (by norm_num) (by norm_num)).1
  rw [h]
  norm_num [pyRound]

/-- C8: a trend primitive whose first segment is a cubic Bezier
contributes exactly one sample, the centre of its bounding box; any other
trend primitive contributes, per maximal continuous sub-path in traversal
order, the start point of every segment followed by the final end point
of the sub-path.  `continuousSubpaths` is indeed that decomposition: the
groups concatenate back to the segment list, every group is a nonempty
run of connected segments, and adjacent groups do not connect. -/
theorem trend_sampling_rule (t : PathPrim) :
    samplesOfTrend t =
      (if (t.segs.headD dummySeg).isCubic then [bboxCenter t]
       else ((continuousSubpaths t.segs).map subpathPoints).flatten)
    ∧ (continuousSubpaths t.segs).flatten = t.segs
    ∧ (∀ g ∈ continuousSubpaths t.segs,
        g ≠ [] ∧ List.Chain' (fun s s2 => s.endp = s2.start) g)
    ∧ List.Chain' (fun g g2 => (g.getLastD dummySeg).endp ≠ (g2.headD dummySeg).start)
        (continuousSubpaths t.segs)
    ∧ (∀ sp, subpathPoints sp = sp.map (fun s => s.start) ++ [(sp.getLastD dummySeg).endp]) :=
  ⟨rfl, continuousSubpaths_flatten t.segs, continuousSubpaths_groups t.segs,
    continuousSubpaths_maximal t.segs, fun _ => rfl⟩

/-- C9: the day offsets `convert_units` computes are monotone in the
native x coordinate (rounding may create ties). -/
theorem day_offset_monotone (p1 p2 : Pt) (u b l xmin xmax yspan xspan : ℚ)
    (d1 d2 : ℤ) (v1 v2 : ℚ)
    (hx : p1.re < p2.re) (hlt : xmin < xmax) (hxs : 0 ≤ xspan)
    (h : convert_units [p1, p2] [u, b, l] (xmin, xmax) yspan xspan =
      Except.ok [(d1, v1), (d2, v2)]) :
    d1 ≤ d2 := by
  simp only [convert_units, List.map_cons, List.map_nil, Except.ok.injEq,
    List.cons.injEq, Prod.mk.injEq, and_true] at h
  obtain ⟨⟨hd1, -⟩, hd2, -⟩ := h
  have hs : (0 : ℚ) < xmax - xmin := sub_pos.mpr hlt
  have hfrac : (p1.re - xmin) / (xmax - xmin) ≤ (p2.re - xmin) / (xmax - xmin) :=
    (div_le_div_iff_of_pos_right hs).mpr (by linarith)
  have harg := mul_le_mul_of_nonneg_left hfrac hxs
  have hmono := pyRound_mono harg
  omega

/-- Witness for C9: two samples at x 0 and x 10 of a 0..420 axis produce
day offsets 1 and 2, and 1 ≤ 2. -/
theorem day_offset_monotone_witness :
    convert_units [⟨0, 0⟩, ⟨10, 0⟩] [90, 50, 10] (0, 420) 80 42
      = Except.ok [(1, 100), (2, 100)]
    ∧ (1 : ℤ) ≤ 2 :=
  ⟨by norm_num [convert_units, pyRound],
    day_offset_monotone ⟨0, 0⟩ ⟨10, 0⟩ 90 50 10 0 420 80 42 1 2 100 100
      (by decide) (by decide) (by decide) (by norm_num [convert_units, pyRound])⟩

/-- C10: replayed against an explicit heap of Python list objects,
`categorise_paths` leaves the list of the caller unchanged whether it
returns normally or fails, and computes the same result as the pure
embedding; the only in-place mutation (the sort) targets the fresh list
built by the comprehension, never the argument list. -/
theorem paths_list_read_only (h0 : Heap) (r : Nat) (hr : r < h0.next) :
    (categorise_paths_imp h0 r).1.mem r = h0.mem r
    ∧ (categorise_paths_imp h0 r).2 = categorise_paths (h0.mem r) := by
  have hne0 : ¬ (r = h0.next) := by omega
  have hne1 : ¬ (r = h0.next + 1) := by omega
  have hne2 : ¬ (r = h0.next + 2) := by omega
  have hne3 : ¬ (r = h0.next + 3) := by omega
  have hne2a : ¬ (r = h0.next + 1 + 1) := by omega
  have hne3a : ¬ (r = h0.next + 1 + 1 + 1) := by omega
  by_cases hgt : 5 < (singleSegs (h0.mem r)).length
  · constructor
    · simp only [categorise_paths_imp, Heap.alloc, Heap.write, singleSegs] at *
      simp [hgt, hne0, hne1, hne2, hne3, hne2a, hne3a, apply_ite
        (fun z : Heap × Except String ((ℚ × ℚ) × List ℚ × List Pt) => z.1.mem r)]
    · simp only [categorise_paths_imp, Heap.alloc, Heap.write, categorise_paths,
        yCollapsed, ySorted, keptStartYs, keptSingles, sortedSingles, singleSegs,
        multiSegs, xlimOf, trendPoints, trendPrims, shortTrends] at *
      simp [hgt, apply_ite
        (fun z : Heap × Except String ((ℚ × ℚ) × List ℚ × List Pt) => z.2)]
  · constructor
    · simp only [categorise_paths_imp, Heap.alloc, Heap.write, singleSegs] at *
      simp [hgt, hne0, hne1, hne2, hne3, hne2a, hne3a, apply_ite
        (fun z : Heap × Except String ((ℚ × ℚ) × List ℚ × List Pt) => z.1.mem r)]
    · simp only [categorise_paths_imp, Heap.alloc, Heap.write, categorise_paths,
        yCollapsed, ySorted, keptStartYs, keptSingles, sortedSingles, singleSegs,
        multiSegs, xlimOf, trendPoints, trendPrims, shortTrends] at *
      simp [hgt, apply_ite
        (fun z : Heap × Except String ((ℚ × ℚ) × List ℚ × List Pt) => z.2)]

/-- Witness for C10 on a heap holding `sixPaths` (the branch with the
in-place length sort) at reference 0. -/
theorem paths_list_read_only_witness :
    (categorise_paths_imp heapC 0).1.mem 0 = heapC.mem 0
    ∧ (categorise_paths_imp heapC 0).2 = categorise_paths (heapC.mem 0) :=
  paths_list_read_only heapC 0 (by decide)

end CreateCsvs
